import Mathlib

/-!
Verification of the bounded span encoder (Stackdriver trace export) of this
repository: `protoFromSpanData`, `copyAttributes`, `trunc` and `clip32`,
together with the parts of Go's `unicode/utf8` package (`DecodeRune`,
`DecodeLastRune`) that `trunc` depends on.

Modelling conventions:
- a Go string / byte slice is a `List Nat` of its bytes;
- Go `int` values are `Int` (64-bit overflow never matters for the
  quantities involved: they are list lengths); the one place where a
  narrower machine width is observable is the `int32` fields of the wire
  format, modelled with explicit saturation (`clip32`) and wrap (`toInt32`);
- fallible code (the slice expression `s[:limit]`, which panics for a
  negative limit) returns `Option`.
-/

/-- A Go string, as the list of its bytes. -/
abbrev GoString := List Nat

/-! ## Go `unicode/utf8`: DecodeRune and DecodeLastRune -/

/-- Go `utf8.RuneError` (U+FFFD). -/
def RuneErr : Nat := 0xFFFD

/-- Go `utf8.RuneSelf`. -/
def RuneSelf : Nat := 0x80

/-- Go's `first` table plus `acceptRanges`, folded together: for a leading
byte `b ≥ 0x80`, `none` means an invalid first byte (`xx` in the table),
`some (sz, lo, hi)` gives the encoded size and the accepted range of the
second byte. -/
def runeInfo (b : Nat) : Option (Nat × Nat × Nat) :=
  if b < 0xC2 then none
  else if b ≤ 0xDF then some (2, 0x80, 0xBF)
  else if b = 0xE0 then some (3, 0xA0, 0xBF)
  else if b ≤ 0xEC then some (3, 0x80, 0xBF)
  else if b = 0xED then some (3, 0x80, 0x9F)
  else if b ≤ 0xEF then some (3, 0x80, 0xBF)
  else if b = 0xF0 then some (4, 0x90, 0xBF)
  else if b ≤ 0xF3 then some (4, 0x80, 0xBF)
  else if b = 0xF4 then some (4, 0x80, 0x8F)
  else none

/-- Go `utf8.RuneStart`: a byte that is not a continuation byte. -/
def runeStart (b : Nat) : Bool := (b &&& 0xC0) != 0x80

/-- Go `utf8.DecodeRune` on a byte slice: returns the decoded rune and its
size, or `(RuneErr, 0)` for the empty slice and `(RuneErr, 1)` for an
invalid encoding. Continuation bytes 2..4 must lie in `[0x80, 0xBF]`
except for the second byte, whose range comes from `runeInfo`. -/
def decodeRune (p : List Nat) : Nat × Nat :=
  match p with
  | [] => (RuneErr, 0)
  | p0 :: rest =>
    if p0 < RuneSelf then (p0, 1)
    else
      match runeInfo p0 with
      | none => (RuneErr, 1)
      | some (sz, lo, hi) =>
        if p.length < sz then (RuneErr, 1)
        else
          let b1 := rest.getD 0 0
          if b1 < lo ∨ hi < b1 then (RuneErr, 1)
          else if sz ≤ 2 then (((p0 &&& 0x1F) <<< 6) ||| (b1 &&& 0x3F), 2)
          else
            let b2 := rest.getD 1 0
            if b2 < 0x80 ∨ 0xBF < b2 then (RuneErr, 1)
            else if sz ≤ 3 then
              (((p0 &&& 0x0F) <<< 12) ||| ((b1 &&& 0x3F) <<< 6) ||| (b2 &&& 0x3F), 3)
            else
              let b3 := rest.getD 2 0
              if b3 < 0x80 ∨ 0xBF < b3 then (RuneErr, 1)
              else
                (((p0 &&& 0x07) <<< 18) ||| ((b1 &&& 0x3F) <<< 12) |||
                  ((b2 &&& 0x3F) <<< 6) ||| (b3 &&& 0x3F), 4)

/-- The backward scan of `utf8.DecodeLastRune`: starting from `len-2` and
going down to `lim = max (len-4) 0`, the index of the first rune-start
byte; if none is found the scan runs one below its floor (Go leaves
`start = lim - 1`, later clamped to 0 by the caller). `Int` so that the
value `-1` of the Go code is representable. -/
def lastStart (p : List Nat) : Int :=
  let e : Int := (p.length : Int)
  let lim : Int := max (e - 4) 0
  let s1 := e - 2
  if s1 < lim then s1
  else if runeStart (p.getD s1.toNat 0) then s1
  else
    let s2 := e - 3
    if s2 < lim then s2
    else if runeStart (p.getD s2.toNat 0) then s2
    else
      let s3 := e - 4
      if s3 < lim then s3
      else if runeStart (p.getD s3.toNat 0) then s3
      else s3 - 1

/-- Go `utf8.DecodeLastRune`: decode the rune ending at the last byte.
`(RuneErr, 0)` on the empty slice; an ASCII last byte decodes alone;
otherwise scan back (at most `UTFMax` bytes) for a start byte, decode
there, and demand that the decoded size reaches exactly the end. -/
def decodeLastRune (p : List Nat) : Nat × Nat :=
  if p.length = 0 then (RuneErr, 0)
  else
    let last := p.getD (p.length - 1) 0
    if last < RuneSelf then (last, 1)
    else
      let start : Int := max (lastStart p) 0
      let rs := decodeRune (p.drop start.toNat)
      if start.toNat + rs.2 ≠ p.length then (RuneErr, 1) else rs

/-! ## The truncation primitive `trunc` -/

/-- Go `math.MinInt32`. -/
def MinInt32 : Int := -2147483648

/-- Go `math.MaxInt32`. -/
def MaxInt32 : Int := 2147483647

/-- Function `clip32`: clips an int to the range of an int32 (saturating). -/
def clip32 (x : Int) : Int :=
  if x < MinInt32 then MinInt32
  else if x > MaxInt32 then MaxInt32
  else x

/-- Two's-complement wrap of a non-negative counter into an `int32`,
as iterated `int32` increments produce (`dropped++` in `copyAttributes`). -/
def toInt32 (n : Nat) : Int :=
  if n % 2 ^ 32 < 2 ^ 31 then ((n % 2 ^ 32 : Nat) : Int)
  else ((n % 2 ^ 32 : Nat) : Int) - 2 ^ 32

/-- The trailing-byte trimming loop of `trunc`: while
`utf8.DecodeLastRune(b)` yields `r == utf8.RuneError && size == 1`, drop the
last byte of `b`, then stop. The `fuel` argument is only a termination
bound; started at `b.length` it never runs out before the loop exits on its
own (each pass shortens `b` by one byte, and the empty slice exits the loop
because `DecodeLastRune` returns size 0 there). -/
def trimLoop : Nat → List Nat → List Nat
  | 0, b => b
  | fuel + 1, b =>
    if (decodeLastRune b).1 = RuneErr ∧ (decodeLastRune b).2 = 1 then
      trimLoop fuel b.dropLast
    else b

/-- The wire `TruncatableString`: a possibly shortened value together with
the count of removed bytes (an `int32` field). -/
structure TruncatableString where
  Value : GoString
  TruncatedByteCount : Int
deriving DecidableEq, Repr

/-- Function `trunc` on a non-negative byte limit (the only way the encoder calls
it: limits 128, 256 and 1024): take the first `limit` bytes, trim the
trailing bytes while they are an invalid last rune, and record the number
of removed bytes clipped to `int32`. -/
def truncT (s : GoString) (limit : Nat) : TruncatableString :=
  if s.length > limit then
    let b := trimLoop (s.take limit).length (s.take limit)
    { Value := b, TruncatedByteCount := clip32 ((s.length : Int) - (b.length : Int)) }
  else
    { Value := s, TruncatedByteCount := 0 }

/-- Function `trunc` with a Go-`int` limit. The slice expression `s[:limit]` panics
when `limit` is negative (reachable because `len(s) > limit` then holds),
modelled as `none`; all call sites in the encoder pass positive constants,
where the result is `some` and agrees with `truncT`. -/
def trunc (s : GoString) (limit : Int) : Option TruncatableString :=
  if (s.length : Int) > limit then
    if limit < 0 then none
    else some (truncT s limit.toNat)
  else some { Value := s, TruncatedByteCount := 0 }

/-! ## Attribute copying (`copyAttributes`) -/

/-- The dynamically-typed value of a span attribute: the three supported
runtime types of the `switch`, plus every other runtime type (`default`
case), which the encoder drops silently. -/
inductive AttrValue where
  | boolV (b : Bool)
  | intV (i : Int)
  | strV (s : GoString)
  | unsupported
deriving DecidableEq, Repr

/-- The `oneof` value of a wire `AttributeValue`. -/
inductive AttributeValueKind where
  | BoolValue (b : Bool)
  | IntValue (i : Int)
  | StringValue (s : TruncatableString)
deriving DecidableEq, Repr

/-- The `switch value := value.(type)` of `copyAttributes`: the wire value
for a supported runtime type (strings truncated to 256 bytes), `none` for
the `default` case. -/
def attrValueConv : AttrValue → Option AttributeValueKind
  | .boolV b => some (.BoolValue b)
  | .intV i => some (.IntValue i)
  | .strV s => some (.StringValue (truncT s 256))
  | .unsupported => none

/-- The wire `Span_Attributes`: the attribute map (modelled as an
association list; a Go map iteration order is unspecified, and no claim
depends on the order) plus the `int32` dropped count. -/
structure Span_Attributes where
  AttributeMap : List (GoString × AttributeValueKind)
  DroppedAttributesCount : Int
deriving DecidableEq, Repr

/-- Go map store `m[key] = v` on the association-list model: replace the
binding if the key is present, otherwise add it at the end. -/
def mapInsert : List (GoString × AttributeValueKind) → GoString → AttributeValueKind →
    List (GoString × AttributeValueKind)
  | [], k, v => [(k, v)]
  | p :: rest, k, v => if p.1 = k then (k, v) :: rest else p :: mapInsert rest k v

/-- The `for key, value := range in` loop of `copyAttributes`, carrying the
attribute map being filled and the `dropped` counter: an unsupported value
type is skipped with no count; a supported value whose key is longer than
128 bytes increments `dropped`; otherwise the entry is stored. -/
def copyAttrLoop : List (GoString × AttrValue) → List (GoString × AttributeValueKind) → Nat →
    List (GoString × AttributeValueKind) × Nat
  | [], am, dropped => (am, dropped)
  | (key, value) :: rest, am, dropped =>
    match attrValueConv value with
    | none => copyAttrLoop rest am dropped
    | some av =>
      if key.length > 128 then copyAttrLoop rest am (dropped + 1)
      else copyAttrLoop rest (mapInsert am key av) dropped

/-- Function `copyAttributes(out, in)`: returns the (possibly nil) output container
`*out` after the call. An empty input leaves `*out` untouched; otherwise
the container and its map are allocated if nil, the entries are copied
through `copyAttrLoop`, and `DroppedAttributesCount` is overwritten with
the final counter (an `int32`). -/
def copyAttributes (out : Option Span_Attributes) (inm : List (GoString × AttrValue)) :
    Option Span_Attributes :=
  if inm.length = 0 then out
  else
    let base := out.getD { AttributeMap := [], DroppedAttributesCount := 0 }
    let r := copyAttrLoop inm base.AttributeMap 0
    some { AttributeMap := r.1, DroppedAttributesCount := toInt32 r.2 }

/-! ## The span record (input) and the wire span (output) -/

/-- Input `trace.SpanContext`: the raw 16-byte trace id and 8-byte span id. -/
structure SpanContext where
  TraceID : List Nat
  SpanID : List Nat
deriving DecidableEq, Repr

/-- A recorded `trace.Annotation`. Timestamps are carried through the
encoder opaquely (no claim depends on the seconds/nanos split), so a time
is a single `Int`. -/
structure Annot where
  Time : Int
  Message : GoString
  Attributes : List (GoString × AttrValue)
deriving DecidableEq, Repr

/-- A recorded `trace.MessageEvent`. -/
structure MessageEvent where
  Time : Int
  EventType : Int
  MessageID : Int
  UncompressedByteSize : Int
  CompressedByteSize : Int
deriving DecidableEq, Repr

/-- A recorded `trace.Link`. -/
structure Link where
  TraceID : List Nat
  SpanID : List Nat
  Type_ : Int
  Attributes : List (GoString × AttrValue)
deriving DecidableEq, Repr

/-- A `runtime.Frame` as yielded by `runtime.CallersFrames(pcs).Next()`:
the encoder's stack loop consumes the frame sequence the iterator yields,
which is what `StackTrace` below stores. -/
structure Frame where
  Function : GoString
  File : GoString
  Line : Int
deriving DecidableEq, Repr

/-- Input `trace.Status`. -/
structure SpanStatus where
  Code : Int
  Message : GoString
deriving DecidableEq, Repr

/-- Input `trace.SpanData`, restricted to the fields `protoFromSpanData` reads.
`StackTrace` is `none` when the recorded `pcs` slice is nil, otherwise the
frame sequence the runtime iterator yields for it. -/
structure SpanData where
  SpanContext : SpanContext
  ParentSpanID : List Nat
  HasRemoteParent : Bool
  Name : GoString
  StartTime : Int
  EndTime : Int
  Status : SpanStatus
  Attributes : List (GoString × AttrValue)
  Annotations : List Annot
  MessageEvents : List MessageEvent
  StackTrace : Option (List Frame)
  Links : List Link
deriving DecidableEq, Repr

/-- Wire `Span_TimeEvent_Annotation`. -/
structure TEAnnot where
  Description : TruncatableString
  Attributes : Option Span_Attributes
deriving DecidableEq, Repr

/-- Wire `Span_TimeEvent_MessageEvent`. -/
structure TEMessageEvent where
  Type_ : Int
  Id : Int
  UncompressedSizeBytes : Int
  CompressedSizeBytes : Int
deriving DecidableEq, Repr

/-- The `oneof` value of a wire `Span_TimeEvent`. -/
inductive TimeEventValue where
  | annot (a : TEAnnot)
  | messageEvent (m : TEMessageEvent)
deriving DecidableEq, Repr

/-- Wire `Span_TimeEvent`. -/
structure Span_TimeEvent where
  Time : Int
  Value : TimeEventValue
deriving DecidableEq, Repr

/-- Wire `Span_TimeEvents`: the merged event list plus the two `int32`
dropped counts. -/
structure Span_TimeEvents where
  TimeEvent : List Span_TimeEvent
  DroppedAnnotationsCount : Int
  DroppedMessageEventsCount : Int
deriving DecidableEq, Repr

/-- Wire `StackTrace_StackFrame`. -/
structure StackFrame where
  FunctionName : TruncatableString
  FileName : TruncatableString
  LineNumber : Int
deriving DecidableEq, Repr

/-- Wire `StackTrace_StackFrames`. -/
structure StackTrace_StackFrames where
  Frame : List StackFrame
  DroppedFramesCount : Int
deriving DecidableEq, Repr

/-- Wire `StackTrace`. -/
structure WireStackTrace where
  StackFrames : StackTrace_StackFrames
deriving DecidableEq, Repr

/-- Wire `Span_Link`. -/
structure Span_Link where
  TraceId : GoString
  SpanId : GoString
  Type_ : Int
  Attributes : Option Span_Attributes
deriving DecidableEq, Repr

/-- Wire `Span_Links`. -/
structure Span_Links where
  Link : List Span_Link
deriving DecidableEq, Repr

/-- Wire `Span`. Optional sub-containers are `Option` (nil pointer =
`none`); `SameProcessAsParentSpan` is the wrapped bool. -/
structure Span where
  Name : GoString
  SpanId : GoString
  ParentSpanId : GoString
  DisplayName : TruncatableString
  StartTime : Int
  EndTime : Int
  SameProcessAsParentSpan : Bool
  Status : Option SpanStatus
  Attributes : Option Span_Attributes
  TimeEvents : Option Span_TimeEvents
  StackTrace : Option WireStackTrace
  Links : Option Span_Links
deriving DecidableEq, Repr

/-! ## Assembling the wire span (`protoFromSpanData`) -/

/-- Constant `maxAnnotationEventsPerSpan`. -/
def maxAnnotationEventsPerSpan : Nat := 32

/-- Constant `maxMessageEventsPerSpan`. -/
def maxMessageEventsPerSpan : Nat := 128

/-- Two lowercase hex digits of a byte: the rendering `String()` of trace
and span ids uses per byte. -/
def hexByte (b : Nat) : List Nat :=
  [(if b / 16 < 10 then 48 + b / 16 else 87 + b / 16),
   (if b % 16 < 10 then 48 + b % 16 else 87 + b % 16)]

/-- Lowercase hex rendering of a byte sequence (`TraceID.String()`,
`SpanID.String()`). -/
def hexString (bs : List Nat) : GoString := (bs.map hexByte).flatten

/-- The bytes of the literal "projects/". -/
def litProjects : GoString := [112, 114, 111, 106, 101, 99, 116, 115, 47]

/-- The bytes of the literal "/traces/". -/
def litTraces : GoString := [47, 116, 114, 97, 99, 101, 115, 47]

/-- The bytes of the literal "/spans/". -/
def litSpans : GoString := [47, 115, 112, 97, 110, 115, 47]

/-- The wire time-event built for one annotation: message truncated to 256
bytes, its own attribute copy into a fresh (nil) container. -/
def annotEvent (a : Annot) : Span_TimeEvent :=
  { Time := a.Time,
    Value := .annot { Description := truncT a.Message 256,
                      Attributes := copyAttributes none a.Attributes } }

/-- The wire time-event built for one message event. -/
def msgEvent (e : MessageEvent) : Span_TimeEvent :=
  { Time := e.Time,
    Value := .messageEvent { Type_ := e.EventType, Id := e.MessageID,
                             UncompressedSizeBytes := e.UncompressedByteSize,
                             CompressedSizeBytes := e.CompressedByteSize } }

/-- The shared shape of the two `for i, x := range xs` capping loops of
`protoFromSpanData` (annotations with cap 32, message events with cap 128):
`count` is the per-kind emitted counter, `i` the range index, `total` the
length of the whole source list. When the counter has reached the cap the
loop breaks, recording `total - i` remaining items as dropped; otherwise
the wire event `f x` is emitted and both counters advance. Returns the
emitted events and the dropped count (0 if the loop never broke). -/
def timeEventLoop (f : α → Span_TimeEvent) (cap : Nat) :
    List α → Nat → Nat → Nat → List Span_TimeEvent × Nat
  | [], _count, _i, _total => ([], 0)
  | x :: rest, count, i, total =>
    if count ≥ cap then ([], total - i)
    else
      let r := timeEventLoop f cap rest (count + 1) (i + 1) total
      (f x :: r.1, r.2)

/-- The `TimeEvents` container of the output span. In the Go code the
container is allocated lazily (on the first appended event, or when a
dropped count must be stored); equivalently it is nil exactly when no event
was emitted and both dropped counts are zero, and the dropped-count fields
are written (clipped to `int32`) only when at least one of them is
non-zero. -/
def spanTimeEvents (s : SpanData) : Option Span_TimeEvents :=
  let a := timeEventLoop annotEvent maxAnnotationEventsPerSpan s.Annotations 0 0
    s.Annotations.length
  let m := timeEventLoop msgEvent maxMessageEventsPerSpan s.MessageEvents 0 0
    s.MessageEvents.length
  let tes := a.1 ++ m.1
  if tes = [] ∧ a.2 = 0 ∧ m.2 = 0 then none
  else
    some { TimeEvent := tes,
           DroppedAnnotationsCount :=
             if a.2 ≠ 0 ∨ m.2 ≠ 0 then clip32 (a.2 : Int) else 0,
           DroppedMessageEventsCount :=
             if a.2 ≠ 0 ∨ m.2 ≠ 0 then clip32 (m.2 : Int) else 0 }

/-- One emitted wire stack frame: function name truncated to 1024 bytes,
file name to 256 bytes. -/
def frameConv (f : Frame) : StackFrame :=
  { FunctionName := truncT f.Function 1024,
    FileName := truncT f.File 256,
    LineNumber := f.Line }

/-- The `frames.Next()` loop of the stack-trace branch: each yielded frame
is either appended (while fewer than 128 frames are stored) or counted as
dropped. -/
def framesLoop : List Frame → List StackFrame → Nat → List StackFrame × Nat
  | [], acc, dropped => (acc, dropped)
  | f :: rest, acc, dropped =>
    if acc.length ≥ 128 then framesLoop rest acc (dropped + 1)
    else framesLoop rest (acc ++ [frameConv f]) dropped

/-- The `StackTrace` field of the output span: absent when no stack was
recorded, otherwise the capped frames plus the clipped dropped count. -/
def spanStackTrace (s : SpanData) : Option WireStackTrace :=
  match s.StackTrace with
  | none => none
  | some fs =>
    let r := framesLoop fs [] 0
    some { StackFrames := { Frame := r.1, DroppedFramesCount := clip32 (r.2 : Int) } }

/-- One converted link: `fmt.Sprintf("projects/%s/traces/%s", projectID,
l.TraceID)` and the hex span id, with the link's own attribute copy. -/
def linkConv (projectID : GoString) (l : Link) : Span_Link :=
  { TraceId := litProjects ++ projectID ++ litTraces ++ hexString l.TraceID,
    SpanId := hexString l.SpanID,
    Type_ := l.Type_,
    Attributes := copyAttributes none l.Attributes }

/-- The `Links` field of the output span: absent when the span has no
links, otherwise every link converted (no cap). -/
def spanLinks (s : SpanData) (projectID : GoString) : Option Span_Links :=
  if s.Links.length > 0 then some { Link := s.Links.map (linkConv projectID) }
  else none

/-- The wire span `protoFromSpanData` builds for a non-nil input span. -/
def spanOf (s : SpanData) (projectID : GoString) : Span :=
  { Name := litProjects ++ projectID ++ litTraces ++ hexString s.SpanContext.TraceID ++
      litSpans ++ hexString s.SpanContext.SpanID,
    SpanId := hexString s.SpanContext.SpanID,
    ParentSpanId :=
      if s.ParentSpanID ≠ List.replicate 8 0 then hexString s.ParentSpanID else [],
    DisplayName := truncT s.Name 128,
    StartTime := s.StartTime,
    EndTime := s.EndTime,
    SameProcessAsParentSpan := !s.HasRemoteParent,
    Status :=
      if s.Status.Code ≠ 0 ∨ s.Status.Message ≠ [] then some s.Status else none,
    Attributes := copyAttributes none s.Attributes,
    TimeEvents := spanTimeEvents s,
    StackTrace := spanStackTrace s,
    Links := spanLinks s projectID }

/-- Function `protoFromSpanData(s, projectID)`: nil in, nil out; otherwise the
assembled wire span. The Go function has no error return and, for a
non-nil span, no failing path. -/
def protoFromSpanData : Option SpanData → GoString → Option Span
  | none, _ => none
  | some s, projectID => some (spanOf s projectID)

/-! ## Accessors used to state the claims -/

/-- Whether a wire time-event carries an annotation. -/
def isAnnotTE (te : Span_TimeEvent) : Bool :=
  match te.Value with
  | .annot _ => true
  | .messageEvent _ => false

/-- Whether a wire time-event carries a message event. -/
def isMsgTE (te : Span_TimeEvent) : Bool :=
  match te.Value with
  | .annot _ => false
  | .messageEvent _ => true

/-- The merged time-event list of a wire span ([] when the container is
absent). -/
def timeEventList (sp : Span) : List Span_TimeEvent :=
  match sp.TimeEvents with
  | none => []
  | some t => t.TimeEvent

/-- The recorded dropped-annotations count of a wire span (0 when the
container is absent, as the proto default). -/
def droppedAnnOf (sp : Span) : Int :=
  match sp.TimeEvents with
  | none => 0
  | some t => t.DroppedAnnotationsCount

/-- The recorded dropped-message-events count of a wire span. -/
def droppedMsgOf (sp : Span) : Int :=
  match sp.TimeEvents with
  | none => 0
  | some t => t.DroppedMessageEventsCount

/-- The emitted stack frames of a wire span. -/
def stackFrameList (sp : Span) : List StackFrame :=
  match sp.StackTrace with
  | none => []
  | some st => st.StackFrames.Frame

/-- The attribute map of a possibly-absent attributes container. -/
def attrMapOf : Option Span_Attributes → List (GoString × AttributeValueKind)
  | none => []
  | some a => a.AttributeMap

/-- The dropped count of a possibly-absent attributes container (0 when
absent, as the proto default). -/
def attrDroppedOf : Option Span_Attributes → Int
  | none => 0
  | some a => a.DroppedAttributesCount

/-- Whether an input attribute entry has a supported runtime value type. -/
def supportedAttr (kv : GoString × AttrValue) : Bool :=
  (attrValueConv kv.2).isSome

/-- Whether an input attribute entry is rejected at the key-length check:
its value converts (so the check is reached) and its key is longer than
128 bytes. -/
def lengthRejected (kv : GoString × AttrValue) : Bool :=
  supportedAttr kv && decide (kv.1.length > 128)

/-! ## Helper lemmas about the trimming loop and `truncT` -/

lemma trimLoop_eq_take (fuel : Nat) :
    ∀ b : List Nat, ∃ k, k ≤ b.length ∧ trimLoop fuel b = b.take k := by
  induction fuel with
  | zero => exact fun b => ⟨b.length, le_rfl, (List.take_length b).symm⟩
  | succ fuel ih =>
    intro b
    by_cases h : (decodeLastRune b).1 = RuneErr ∧ (decodeLastRune b).2 = 1
    · obtain ⟨k, hk, he⟩ := ih b.dropLast
      rw [List.length_dropLast] at hk
      refine ⟨k, by omega, ?_⟩
      rw [show trimLoop (fuel + 1) b = trimLoop fuel b.dropLast from by
        simp only [trimLoop, if_pos h], he, List.dropLast_eq_take, List.take_take]
      congr 1
      omega
    · exact ⟨b.length, le_rfl, by simp only [trimLoop, if_neg h, List.take_length]⟩

lemma trimLoop_length_le (fuel : Nat) (b : List Nat) :
    (trimLoop fuel b).length ≤ b.length := by
  obtain ⟨k, hk, he⟩ := trimLoop_eq_take fuel b
  rw [he, List.length_take]
  omega

lemma decodeLastRune_nil : decodeLastRune [] = (RuneErr, 0) := by decide

lemma trimLoop_valid (fuel : Nat) :
    ∀ b : List Nat, b.length ≤ fuel → decodeLastRune (trimLoop fuel b) ≠ (RuneErr, 1) := by
  induction fuel with
  | zero =>
    intro b hb
    have : b = [] := List.length_eq_zero.mp (Nat.le_zero.mp hb)
    subst this
    simp only [trimLoop]
    decide
  | succ fuel ih =>
    intro b hb
    by_cases h : (decodeLastRune b).1 = RuneErr ∧ (decodeLastRune b).2 = 1
    · have hne : b ≠ [] := by
        rintro rfl
        rw [decodeLastRune_nil] at h
        exact absurd h.2 (by decide)
      rw [show trimLoop (fuel + 1) b = trimLoop fuel b.dropLast from by
        simp only [trimLoop, if_pos h]]
      refine ih _ ?_
      rw [List.length_dropLast]
      have : 0 < b.length := List.length_pos.mpr hne
      omega
    · rw [show trimLoop (fuel + 1) b = b from by simp only [trimLoop, if_neg h]]
      intro heq
      exact h ⟨by rw [heq], by rw [heq]⟩

lemma truncT_of_le {s : GoString} {n : Nat} (h : s.length ≤ n) :
    truncT s n = ⟨s, 0⟩ := by
  unfold truncT
  rw [if_neg (Nat.not_lt.mpr h)]

lemma truncT_of_gt {s : GoString} {n : Nat} (h : n < s.length) :
    truncT s n
      = { Value := trimLoop (s.take n).length (s.take n),
          TruncatedByteCount :=
            clip32 ((s.length : Int)
              - ((trimLoop (s.take n).length (s.take n)).length : Int)) } := by
  unfold truncT
  rw [if_pos h]

lemma truncT_val_length_le (s : GoString) (n : Nat) :
    (truncT s n).Value.length ≤ n := by
  by_cases h : s.length > n
  · rw [truncT_of_gt h]
    refine (trimLoop_length_le _ _).trans ?_
    rw [List.length_take]
    omega
  · rw [truncT_of_le (Nat.not_lt.mp h)]
    exact Nat.not_lt.mp h

/-! ## Helper lemmas about the capping loops -/

lemma timeEventLoop_eq {α : Type} (f : α → Span_TimeEvent) (cap : Nat) :
    ∀ (xs : List α) (count i total : Nat), total = i + xs.length →
      timeEventLoop f cap xs count i total
        = ((xs.take (cap - count)).map f, xs.length - (cap - count)) := by
  intro xs
  induction xs with
  | nil => intro count i total ht; simp [timeEventLoop]
  | cons x rest ih =>
    intro count i total ht
    simp only [List.length_cons] at ht
    by_cases h : count ≥ cap
    · have hc : cap - count = 0 := by omega
      simp only [timeEventLoop, if_pos h, hc, List.take_zero, List.map_nil,
        Nat.sub_zero, List.length_cons, Prod.mk.injEq, true_and]
      omega
    · have hc : cap - count = (cap - (count + 1)) + 1 := by omega
      simp only [timeEventLoop, if_neg h]
      rw [ih (count + 1) (i + 1) total (by omega)]
      rw [hc, List.take_succ_cons, List.map_cons]
      simp only [List.length_cons, Prod.mk.injEq, true_and]
      omega

lemma framesLoop_eq :
    ∀ (fs : List Frame) (acc : List StackFrame) (d : Nat),
      framesLoop fs acc d
        = (acc ++ (fs.take (128 - acc.length)).map frameConv,
           d + (fs.length - (128 - acc.length))) := by
  intro fs
  induction fs with
  | nil => intro acc d; simp [framesLoop]
  | cons f rest ih =>
    intro acc d
    by_cases h : acc.length ≥ 128
    · have hc : 128 - acc.length = 0 := by omega
      simp only [framesLoop, if_pos h, ih, hc, List.take_zero, List.map_nil,
        List.append_nil, Nat.sub_zero, List.length_cons, Prod.mk.injEq, true_and]
      omega
    · have hc : 128 - acc.length = (128 - (acc.length + 1)) + 1 := by omega
      simp only [framesLoop, if_neg h, ih, List.length_append, List.length_cons]
      rw [hc, List.take_succ_cons, List.map_cons]
      simp only [List.length_nil, List.append_assoc, List.singleton_append,
        Prod.mk.injEq, true_and]
      omega

/-! ## Helper lemmas about `copyAttributes` -/

/-- An entry that is stored by `copyAttrLoop`: its value converts and its
key passes the length check. -/
def keptAttr (kv : GoString × AttrValue) : Bool :=
  supportedAttr kv && !decide (kv.1.length > 128)

lemma copyAttrLoop_dropped :
    ∀ (entries : List (GoString × AttrValue))
      (am : List (GoString × AttributeValueKind)) (d : Nat),
      (copyAttrLoop entries am d).2 = d + entries.countP lengthRejected := by
  intro entries
  induction entries with
  | nil => intro am d; simp [copyAttrLoop]
  | cons kv rest ih =>
    intro am d
    obtain ⟨k, v⟩ := kv
    simp only [copyAttrLoop]
    cases hv : attrValueConv v with
    | none =>
      rw [ih]
      have hlr : lengthRejected (k, v) = false := by
        simp [lengthRejected, supportedAttr, hv]
      simp [List.countP_cons, hlr]
    | some av =>
      dsimp only
      by_cases hk : k.length > 128
      · rw [if_pos hk, ih]
        have hlr : lengthRejected (k, v) = true := by
          simp [lengthRejected, supportedAttr, hv, hk]
        simp [List.countP_cons, hlr]
        omega
      · rw [if_neg hk, ih]
        have hlr : lengthRejected (k, v) = false := by
          simp [lengthRejected, supportedAttr, hv, hk]
        simp [List.countP_cons, hlr]

lemma mapInsert_fresh :
    ∀ (am : List (GoString × AttributeValueKind)) (k : GoString)
      (v : AttributeValueKind), (∀ p ∈ am, p.1 ≠ k) →
      mapInsert am k v = am ++ [(k, v)] := by
  intro am
  induction am with
  | nil => intro k v _; rfl
  | cons p rest ih =>
    intro k v h
    have hp : p.1 ≠ k := h p (List.mem_cons_self p rest)
    simp only [mapInsert, if_neg hp, List.cons_append, List.cons.injEq, true_and]
    exact ih k v fun q hq => h q (List.mem_cons_of_mem p hq)

lemma copyAttrLoop_kept :
    ∀ (entries : List (GoString × AttrValue))
      (am : List (GoString × AttributeValueKind)) (d : Nat),
      (∀ kv ∈ entries, ∀ p ∈ am, p.1 ≠ kv.1) → (entries.map Prod.fst).Nodup →
      (copyAttrLoop entries am d).1.length = am.length + entries.countP keptAttr := by
  intro entries
  induction entries with
  | nil => intro am d _ _; simp [copyAttrLoop]
  | cons kv rest ih =>
    intro am d hfresh hnd
    obtain ⟨k, v⟩ := kv
    simp only [List.map_cons, List.nodup_cons] at hnd
    simp only [copyAttrLoop]
    cases hv : attrValueConv v with
    | none =>
      rw [ih am d (fun kv hkv p hp => hfresh kv (List.mem_cons_of_mem _ hkv) p hp) hnd.2]
      have : keptAttr (k, v) = false := by simp [keptAttr, supportedAttr, hv]
      simp [List.countP_cons, this]
    | some av =>
      dsimp only
      by_cases hk : k.length > 128
      · rw [if_pos hk,
          ih am (d + 1) (fun kv hkv p hp => hfresh kv (List.mem_cons_of_mem _ hkv) p hp) hnd.2]
        have : keptAttr (k, v) = false := by simp [keptAttr, supportedAttr, hv, hk]
        simp [List.countP_cons, this]
      · rw [if_neg hk]
        have hins : mapInsert am k av = am ++ [(k, av)] :=
          mapInsert_fresh am k av fun p hp =>
            hfresh (k, v) (List.mem_cons_self _ _) p hp
        rw [hins]
        have hfresh' : ∀ kv ∈ rest, ∀ p ∈ am ++ [(k, av)], p.1 ≠ kv.1 := by
          intro kv hkv p hp
          rcases List.mem_append.mp hp with hpa | hpk
          · exact hfresh kv (List.mem_cons_of_mem _ hkv) p hpa
          · have : p = (k, av) := List.mem_singleton.mp hpk
            subst this
            intro hek
            refine hnd.1 ?_
            rw [show k = kv.1 from hek]
            exact List.mem_map_of_mem Prod.fst hkv
        rw [ih (am ++ [(k, av)]) d hfresh' hnd.2]
        have : keptAttr (k, v) = true := by simp [keptAttr, supportedAttr, hv, hk]
        simp [List.countP_cons, this]
        omega

lemma kept_add_rejected_pointwise (kv : GoString × AttrValue) :
    (if keptAttr kv = true then 1 else 0) + (if lengthRejected kv = true then 1 else 0)
      = if supportedAttr kv = true then (1 : Nat) else 0 := by
  unfold keptAttr lengthRejected
  rcases Bool.eq_false_or_eq_true (supportedAttr kv) with hs | hs <;>
    rcases Bool.eq_false_or_eq_true (decide (kv.1.length > 128)) with hl | hl <;>
      rw [hs, hl] <;> simp

lemma countP_kept_add_rejected (entries : List (GoString × AttrValue)) :
    entries.countP keptAttr + entries.countP lengthRejected
      = entries.countP supportedAttr := by
  induction entries with
  | nil => simp
  | cons kv rest ih =>
    simp only [List.countP_cons]
    have := kept_add_rejected_pointwise kv
    omega

lemma copyAttributes_nil (out : Option Span_Attributes) :
    copyAttributes out [] = out := by
  simp [copyAttributes]

lemma copyAttributes_none_eq (entries : List (GoString × AttrValue))
    (h : entries ≠ []) :
    copyAttributes none entries
      = some { AttributeMap := (copyAttrLoop entries [] 0).1,
               DroppedAttributesCount := toInt32 (copyAttrLoop entries [] 0).2 } := by
  unfold copyAttributes
  rw [if_neg (by simpa using h)]
  rfl

/-! ## Helper lemmas about the assembled span -/

lemma annotLoop_top (s : SpanData) :
    timeEventLoop annotEvent maxAnnotationEventsPerSpan s.Annotations 0 0
        s.Annotations.length
      = ((s.Annotations.take maxAnnotationEventsPerSpan).map annotEvent,
         s.Annotations.length - maxAnnotationEventsPerSpan) := by
  rw [timeEventLoop_eq annotEvent maxAnnotationEventsPerSpan s.Annotations 0 0
    s.Annotations.length (by omega)]
  simp

lemma msgLoop_top (s : SpanData) :
    timeEventLoop msgEvent maxMessageEventsPerSpan s.MessageEvents 0 0
        s.MessageEvents.length
      = ((s.MessageEvents.take maxMessageEventsPerSpan).map msgEvent,
         s.MessageEvents.length - maxMessageEventsPerSpan) := by
  rw [timeEventLoop_eq msgEvent maxMessageEventsPerSpan s.MessageEvents 0 0
    s.MessageEvents.length (by omega)]
  simp

lemma timeEventList_spanOf (s : SpanData) (pid : GoString) :
    timeEventList (spanOf s pid)
      = (s.Annotations.take maxAnnotationEventsPerSpan).map annotEvent
          ++ (s.MessageEvents.take maxMessageEventsPerSpan).map msgEvent := by
  have h : (spanOf s pid).TimeEvents = spanTimeEvents s := rfl
  simp only [timeEventList, h, spanTimeEvents, annotLoop_top, msgLoop_top]
  by_cases hc :
      (s.Annotations.take maxAnnotationEventsPerSpan).map annotEvent
          ++ (s.MessageEvents.take maxMessageEventsPerSpan).map msgEvent = []
        ∧ s.Annotations.length - maxAnnotationEventsPerSpan = 0
        ∧ s.MessageEvents.length - maxMessageEventsPerSpan = 0
  · rw [if_pos hc]
    exact hc.1.symm
  · rw [if_neg hc]

lemma clip32_zero : clip32 0 = 0 := by decide

lemma droppedAnnOf_spanOf (s : SpanData) (pid : GoString) :
    droppedAnnOf (spanOf s pid)
      = clip32 ((s.Annotations.length - maxAnnotationEventsPerSpan : Nat) : Int) := by
  have h : (spanOf s pid).TimeEvents = spanTimeEvents s := rfl
  simp only [droppedAnnOf, h, spanTimeEvents, annotLoop_top, msgLoop_top]
  by_cases hc :
      (s.Annotations.take maxAnnotationEventsPerSpan).map annotEvent
          ++ (s.MessageEvents.take maxMessageEventsPerSpan).map msgEvent = []
        ∧ s.Annotations.length - maxAnnotationEventsPerSpan = 0
        ∧ s.MessageEvents.length - maxMessageEventsPerSpan = 0
  · rw [if_pos hc]
    show (0 : Int) = _
    rw [hc.2.1, Nat.cast_zero, clip32_zero]
  · rw [if_neg hc]
    show (if _ then _ else _) = _
    by_cases hd :
        s.Annotations.length - maxAnnotationEventsPerSpan ≠ 0
          ∨ s.MessageEvents.length - maxMessageEventsPerSpan ≠ 0
    · rw [if_pos hd]
    · rw [if_neg hd]
      push_neg at hd
      rw [hd.1, Nat.cast_zero, clip32_zero]

lemma droppedMsgOf_spanOf (s : SpanData) (pid : GoString) :
    droppedMsgOf (spanOf s pid)
      = clip32 ((s.MessageEvents.length - maxMessageEventsPerSpan : Nat) : Int) := by
  have h : (spanOf s pid).TimeEvents = spanTimeEvents s := rfl
  simp only [droppedMsgOf, h, spanTimeEvents, annotLoop_top, msgLoop_top]
  by_cases hc :
      (s.Annotations.take maxAnnotationEventsPerSpan).map annotEvent
          ++ (s.MessageEvents.take maxMessageEventsPerSpan).map msgEvent = []
        ∧ s.Annotations.length - maxAnnotationEventsPerSpan = 0
        ∧ s.MessageEvents.length - maxMessageEventsPerSpan = 0
  · rw [if_pos hc]
    show (0 : Int) = _
    rw [hc.2.2, Nat.cast_zero, clip32_zero]
  · rw [if_neg hc]
    show (if _ then _ else _) = _
    by_cases hd :
        s.Annotations.length - maxAnnotationEventsPerSpan ≠ 0
          ∨ s.MessageEvents.length - maxMessageEventsPerSpan ≠ 0
    · rw [if_pos hd]
    · rw [if_neg hd]
      push_neg at hd
      rw [hd.2, Nat.cast_zero, clip32_zero]

lemma filter_annot_append (A : List Annot) (M : List MessageEvent) :
    ((A.map annotEvent ++ M.map msgEvent).filter isAnnotTE) = A.map annotEvent := by
  rw [List.filter_append]
  have h1 : (A.map annotEvent).filter isAnnotTE = A.map annotEvent :=
    List.filter_eq_self.mpr fun x hx => by
      obtain ⟨a, _, rfl⟩ := List.mem_map.mp hx
      rfl
  have h2 : (M.map msgEvent).filter isAnnotTE = [] :=
    List.filter_eq_nil_iff.mpr fun x hx => by
      obtain ⟨m, _, rfl⟩ := List.mem_map.mp hx
      simp [isAnnotTE, msgEvent]
  rw [h1, h2, List.append_nil]

lemma filter_msg_append (A : List Annot) (M : List MessageEvent) :
    ((A.map annotEvent ++ M.map msgEvent).filter isMsgTE) = M.map msgEvent := by
  rw [List.filter_append]
  have h1 : (A.map annotEvent).filter isMsgTE = [] :=
    List.filter_eq_nil_iff.mpr fun x hx => by
      obtain ⟨a, _, rfl⟩ := List.mem_map.mp hx
      simp [isMsgTE, annotEvent]
  have h2 : (M.map msgEvent).filter isMsgTE = M.map msgEvent :=
    List.filter_eq_self.mpr fun x hx => by
      obtain ⟨m, _, rfl⟩ := List.mem_map.mp hx
      rfl
  rw [h1, h2, List.nil_append]

lemma stackFrameList_spanOf (s : SpanData) (fs : List Frame) (pid : GoString)
    (h : s.StackTrace = some fs) :
    stackFrameList (spanOf s pid) = (fs.take 128).map frameConv := by
  have hst : (spanOf s pid).StackTrace = spanStackTrace s := rfl
  simp only [stackFrameList, hst, spanStackTrace, h, framesLoop_eq]
  simp

lemma attributes_spanOf (s : SpanData) (pid : GoString) :
    (spanOf s pid).Attributes = copyAttributes none s.Attributes := rfl

/-! ## Concrete example data (used by the witnesses) -/

/-- An example span context. -/
def exCtx : SpanContext :=
  { TraceID := List.replicate 16 1, SpanID := List.replicate 8 1 }

/-- A minimal example span record. -/
def exSpan : SpanData :=
  { SpanContext := exCtx, ParentSpanID := List.replicate 8 0,
    HasRemoteParent := false, Name := [97], StartTime := 0, EndTime := 0,
    Status := { Code := 0, Message := [] }, Attributes := [], Annotations := [],
    MessageEvents := [], StackTrace := none, Links := [] }

/-- An example frame. -/
def exFrame : Frame := { Function := [102], File := [103], Line := 7 }

/-- An example span record with one entry in every capped list and two
attributes (one of unsupported type). -/
def exSpan2 : SpanData :=
  { exSpan with
    Attributes := [([107], .boolV true), ([106], .unsupported)],
    Annotations := [{ Time := 0, Message := [97], Attributes := [] }],
    MessageEvents := [{ Time := 0, EventType := 1, MessageID := 2,
                        UncompressedByteSize := 3, CompressedByteSize := 4 }],
    StackTrace := some [exFrame] }

/-! ## The claims -/

/-- Claim C1: every encoded span has at most 32 annotation time-events and
at most 128 message-event time-events; for each source list the emitted
items are exactly its first items in order up to the cap, the loop's
dropped counter is the number of items from the break index to the end of
the list (0 when the cap is not exceeded), and that value, clipped to
`int32`, is what the output records. -/
theorem claim_C1 (s : SpanData) (pid : GoString) :
    (timeEventList (spanOf s pid)).filter isAnnotTE
        = (s.Annotations.take maxAnnotationEventsPerSpan).map annotEvent
  ∧ (timeEventList (spanOf s pid)).filter isMsgTE
        = (s.MessageEvents.take maxMessageEventsPerSpan).map msgEvent
  ∧ ((timeEventList (spanOf s pid)).filter isAnnotTE).length ≤ 32
  ∧ ((timeEventList (spanOf s pid)).filter isMsgTE).length ≤ 128
  ∧ (timeEventLoop annotEvent maxAnnotationEventsPerSpan s.Annotations 0 0
        s.Annotations.length).2 = s.Annotations.length - maxAnnotationEventsPerSpan
  ∧ (timeEventLoop msgEvent maxMessageEventsPerSpan s.MessageEvents 0 0
        s.MessageEvents.length).2 = s.MessageEvents.length - maxMessageEventsPerSpan
  ∧ droppedAnnOf (spanOf s pid)
        = clip32 ((s.Annotations.length - maxAnnotationEventsPerSpan : Nat) : Int)
  ∧ droppedMsgOf (spanOf s pid)
        = clip32 ((s.MessageEvents.length - maxMessageEventsPerSpan : Nat) : Int) := by
  refine ⟨?_, ?_, ?_, ?_, ?_, ?_, ?_, ?_⟩
  · rw [timeEventList_spanOf, filter_annot_append]
  · rw [timeEventList_spanOf, filter_msg_append]
  · rw [timeEventList_spanOf, filter_annot_append, List.length_map, List.length_take]
    simp [maxAnnotationEventsPerSpan]
  · rw [timeEventList_spanOf, filter_msg_append, List.length_map, List.length_take]
    simp [maxMessageEventsPerSpan]
  · rw [annotLoop_top]
  · rw [msgLoop_top]
  · exact droppedAnnOf_spanOf s pid
  · exact droppedMsgOf_spanOf s pid

/-- Claim C2, counterexample: for an attribute entry of unsupported runtime
type (e.g. a float), nothing is kept and nothing is counted as dropped, so
kept + dropped is 0 while the input has one item: the accounting identity
stated for "attribute entries rejected for key length" fails against the
whole input. -/
theorem claim_C2_cex :
    ((attrMapOf (copyAttributes none [([107], AttrValue.unsupported)])).length : Int)
        + attrDroppedOf (copyAttributes none [([107], AttrValue.unsupported)])
      ≠ (([([107], AttrValue.unsupported)] : List (GoString × AttrValue)).length : Int) := by
  decide

/-- Claim C2 (amended): with the dropped counts taken as the encoder's
internal (pre-`clip32`) counters, kept + dropped equals the input count
for annotations, message events and stack frames; for attributes (whose
keys are distinct, as Go map keys are), the kept entries plus the
length-dropped count equal the number of entries whose value has a
supported runtime type — entries of unsupported type are outside the
accounting. -/
theorem claim_C2_amended (s : SpanData) (pid : GoString)
    (hkeys : (s.Attributes.map Prod.fst).Nodup) :
    ((timeEventList (spanOf s pid)).filter isAnnotTE).length
        + (timeEventLoop annotEvent maxAnnotationEventsPerSpan s.Annotations 0 0
            s.Annotations.length).2
      = s.Annotations.length
  ∧ ((timeEventList (spanOf s pid)).filter isMsgTE).length
        + (timeEventLoop msgEvent maxMessageEventsPerSpan s.MessageEvents 0 0
            s.MessageEvents.length).2
      = s.MessageEvents.length
  ∧ (∀ fs, s.StackTrace = some fs →
      (stackFrameList (spanOf s pid)).length + (framesLoop fs [] 0).2 = fs.length)
  ∧ (attrMapOf (spanOf s pid).Attributes).length + (copyAttrLoop s.Attributes [] 0).2
      = s.Attributes.countP supportedAttr := by
  refine ⟨?_, ?_, ?_, ?_⟩
  · rw [timeEventList_spanOf, filter_annot_append, annotLoop_top,
      List.length_map, List.length_take]
    omega
  · rw [timeEventList_spanOf, filter_msg_append, msgLoop_top,
      List.length_map, List.length_take]
    omega
  · intro fs hfs
    rw [stackFrameList_spanOf s fs pid hfs, framesLoop_eq,
      List.length_map, List.length_take]
    simp
    omega
  · rw [attributes_spanOf]
    by_cases he : s.Attributes = []
    · rw [he, copyAttributes_nil]
      simp [attrMapOf, copyAttrLoop]
    · rw [copyAttributes_none_eq _ he]
      show (copyAttrLoop s.Attributes [] 0).1.length + _ = _
      rw [copyAttrLoop_kept s.Attributes [] 0 (by simp) hkeys,
        copyAttrLoop_dropped s.Attributes [] 0]
      simp only [List.length_nil, Nat.zero_add]
      exact countP_kept_add_rejected s.Attributes

/-- Claim C2, witness at a concrete span. -/
theorem claim_C2_amended_witness :
    ((timeEventList (spanOf exSpan2 [])).filter isAnnotTE).length
        + (timeEventLoop annotEvent maxAnnotationEventsPerSpan exSpan2.Annotations 0 0
            exSpan2.Annotations.length).2
      = exSpan2.Annotations.length
  ∧ ((timeEventList (spanOf exSpan2 [])).filter isMsgTE).length
        + (timeEventLoop msgEvent maxMessageEventsPerSpan exSpan2.MessageEvents 0 0
            exSpan2.MessageEvents.length).2
      = exSpan2.MessageEvents.length
  ∧ (stackFrameList (spanOf exSpan2 [])).length + (framesLoop [exFrame] [] 0).2
      = [exFrame].length
  ∧ (attrMapOf (spanOf exSpan2 []).Attributes).length
        + (copyAttrLoop exSpan2.Attributes [] 0).2
      = exSpan2.Attributes.countP supportedAttr := by
  have h := claim_C2_amended exSpan2 [] (by decide)
  exact ⟨h.1, h.2.1, h.2.2.1 [exFrame] rfl, h.2.2.2⟩

/-- Claim C3, counterexample: the truncated-byte count is the difference
of byte lengths clipped to `int32`, not the difference itself; on a
string of 2^31 + 1 bytes truncated to limit 0 the stored count saturates
at 2^31 - 1, so the stated equality with the raw difference fails. -/
theorem claim_C3_cex :
    (truncT (List.replicate (2 ^ 31 + 1) 0) 0).TruncatedByteCount
      ≠ ((List.replicate (2 ^ 31 + 1) (0 : Nat)).length : Int)
          - ((truncT (List.replicate (2 ^ 31 + 1) 0) 0).Value.length : Int) := by
  have hlen : (List.replicate (2 ^ 31 + 1) (0 : Nat)).length = 2 ^ 31 + 1 :=
    List.length_replicate _ _
  have hgt : (0 : Nat) < (List.replicate (2 ^ 31 + 1) (0 : Nat)).length := by
    rw [hlen]
    norm_num
  have htake : (List.replicate (2 ^ 31 + 1) (0 : Nat)).take 0 = [] := List.take_zero _
  have hres : truncT (List.replicate (2 ^ 31 + 1) 0) 0
      = { Value := [], TruncatedByteCount := clip32 ((2 ^ 31 + 1 : Int) - 0) } := by
    rw [truncT_of_gt hgt, htake]
    rw [show trimLoop ([] : List Nat).length [] = [] from rfl]
    rw [hlen]
    norm_num
  rw [hres, hlen]
  norm_num [clip32, MinInt32, MaxInt32]

/-- Claim C3 (amended): if the byte length of `s` is at most `n`, `truncT`
returns `s` unchanged with count 0; otherwise the kept value is the first
`n` bytes with the trailing-invalid-rune trimming applied (hence a prefix
`s.take k` for some `k ≤ n`, ending in no incomplete rune), and the
truncated-byte count is the difference "original byte length minus kept
byte length" clipped to `int32` — equal to the raw difference whenever
that difference is below 2^31. -/
theorem claim_C3_amended (s : GoString) (n : Nat) :
    (s.length ≤ n → truncT s n = ⟨s, 0⟩)
  ∧ (n < s.length →
      (truncT s n).Value = trimLoop (s.take n).length (s.take n)
      ∧ (∃ k, k ≤ n ∧ (truncT s n).Value = s.take k)
      ∧ decodeLastRune (truncT s n).Value ≠ (RuneErr, 1)
      ∧ (truncT s n).TruncatedByteCount
          = clip32 ((s.length : Int) - ((truncT s n).Value.length : Int))
      ∧ ((s.length : Int) - ((truncT s n).Value.length : Int) < 2 ^ 31 →
          (truncT s n).TruncatedByteCount
            = (s.length : Int) - ((truncT s n).Value.length : Int))) := by
  constructor
  · exact truncT_of_le
  · intro h
    rw [truncT_of_gt h]
    dsimp only
    refine ⟨rfl, ?_, ?_, rfl, ?_⟩
    · obtain ⟨k, hk, he⟩ := trimLoop_eq_take (s.take n).length (s.take n)
      rw [List.length_take] at hk
      exact ⟨min k n, min_le_right k n, by
        rw [he, List.take_take]⟩
    · exact trimLoop_valid _ _ le_rfl
    · intro hlt
      simp only [List.length_take] at hlt ⊢
      have hle : (trimLoop (n ⊓ s.length) (s.take n)).length ≤ s.length := by
        refine (trimLoop_length_le _ _).trans ?_
        rw [List.length_take]
        omega
      norm_num at hlt
      rw [clip32, if_neg (by unfold MinInt32; omega),
        if_neg (by unfold MaxInt32; omega)]

/-- Claim C3, witness: the amended claim at a concrete truncation (a
3-byte character cut at limit 2). -/
theorem claim_C3_amended_witness :
    (truncT [226, 130, 172] 2).Value
        = trimLoop (([226, 130, 172] : GoString).take 2).length
            (([226, 130, 172] : GoString).take 2)
  ∧ (∃ k, k ≤ 2 ∧ (truncT [226, 130, 172] 2).Value = ([226, 130, 172] : GoString).take k)
  ∧ decodeLastRune (truncT [226, 130, 172] 2).Value ≠ (RuneErr, 1)
  ∧ (truncT [226, 130, 172] 2).TruncatedByteCount
      = clip32 ((([226, 130, 172] : GoString).length : Int)
          - ((truncT [226, 130, 172] 2).Value.length : Int))
  ∧ ((([226, 130, 172] : GoString).length : Int)
          - ((truncT [226, 130, 172] 2).Value.length : Int) < 2 ^ 31 →
      (truncT [226, 130, 172] 2).TruncatedByteCount
        = (([226, 130, 172] : GoString).length : Int)
            - ((truncT [226, 130, 172] 2).Value.length : Int)) :=
  (claim_C3_amended [226, 130, 172] 2).2 (by decide)

/-- Claim C4, counterexample: an input that already fits within the limit
is returned unchanged even when its final bytes form an incomplete
multi-byte character — here the first two bytes of the three-byte
character E2 82 AC, on which `DecodeLastRune` reports an invalid final
rune. `trunc` only repairs the tail when it actually truncates. -/
theorem claim_C4_cex :
    trunc [226, 130] 3 = some { Value := [226, 130], TruncatedByteCount := 0 }
  ∧ decodeLastRune [226, 130] = (RuneErr, 1)
  ∧ decodeRune [226, 130, 172] = (8364, 3) := by
  decide

/-- Claim C4 (amended): `trunc` panics exactly when the limit is negative
and smaller than the byte length (never for the encoder's non-negative
limits); for a non-negative limit it returns `truncT`, and whenever it
actually truncates (the input is longer than the limit) the returned
value never ends in an invalid final rune — in particular a fully-invalid
single trailing byte is trimmed away. An input that fits within the limit
is returned unchanged, even if it ends mid-character. -/
theorem claim_C4_amended (s : GoString) (n : Int) :
    (trunc s n = none ↔ (n < 0 ∧ n < (s.length : Int)))
  ∧ (0 ≤ n → trunc s n = some (truncT s n.toNat))
  ∧ (0 ≤ n → n < (s.length : Int) →
      decodeLastRune (truncT s n.toNat).Value ≠ (RuneErr, 1)) := by
  refine ⟨?_, ?_, ?_⟩
  · by_cases h1 : (s.length : Int) > n
    · by_cases h2 : n < 0
      · rw [trunc, if_pos h1, if_pos h2]
        exact iff_of_true rfl ⟨h2, h1⟩
      · rw [trunc, if_pos h1, if_neg h2]
        exact iff_of_false (by simp) fun hh => h2 hh.1
    · rw [trunc, if_neg h1]
      exact iff_of_false (by simp) fun hh => h1 hh.2
  · intro hn
    by_cases h1 : (s.length : Int) > n
    · rw [trunc, if_pos h1, if_neg (by omega)]
    · rw [trunc, if_neg h1]
      have hle : s.length ≤ n.toNat := by omega
      rw [truncT_of_le hle]
  · intro hn hlt
    have hlt' : n.toNat < s.length := by omega
    rw [truncT_of_gt hlt']
    exact trimLoop_valid _ _ le_rfl

/-- Claim C4, witness: a concrete string with an invalid tail, truncated
at a non-negative limit. -/
theorem claim_C4_amended_witness :
    trunc [97, 255, 255] 2 = some (truncT [97, 255, 255] ((2 : Int).toNat))
  ∧ decodeLastRune (truncT [97, 255, 255] ((2 : Int).toNat)).Value ≠ (RuneErr, 1) :=
  ⟨(claim_C4_amended [97, 255, 255] 2).2.1 (by decide),
   (claim_C4_amended [97, 255, 255] 2).2.2 (by decide) (by decide)⟩

/-- Claim C5: in `copyAttributes`, an entry of unsupported runtime value
type is skipped without touching the map or the dropped counter; an entry
with supported value and a key longer than 128 bytes is dropped with the
counter incremented; the final counter value is exactly the number of
length-rejected entries (those with supported value type and over-long
key), and the stored `int32` field is that count (wrapped, identity below
2^31). -/
theorem claim_C5 (k : GoString) (v : AttrValue) (av : AttributeValueKind)
    (rest entries : List (GoString × AttrValue))
    (am : List (GoString × AttributeValueKind)) (d : Nat) :
    copyAttrLoop ((k, AttrValue.unsupported) :: rest) am d = copyAttrLoop rest am d
  ∧ (attrValueConv v = some av → k.length > 128 →
      copyAttrLoop ((k, v) :: rest) am d = copyAttrLoop rest am (d + 1))
  ∧ (copyAttrLoop entries am d).2 = d + entries.countP lengthRejected
  ∧ attrDroppedOf (copyAttributes none entries)
      = (if entries = [] then 0 else toInt32 (entries.countP lengthRejected)) := by
  refine ⟨rfl, ?_, copyAttrLoop_dropped entries am d, ?_⟩
  · intro hv hk
    simp only [copyAttrLoop]
    rw [hv]
    dsimp only
    rw [if_pos hk]
  · by_cases he : entries = []
    · rw [he, if_pos rfl, copyAttributes_nil]
      rfl
    · rw [copyAttributes_none_eq _ he, if_neg he]
      show toInt32 (copyAttrLoop entries [] 0).2 = _
      rw [copyAttrLoop_dropped entries [] 0, Nat.zero_add]

set_option maxRecDepth 10000 in
/-- Claim C5, witness at concrete entries (a 129-byte key with an int
value; a singleton list whose only entry is length-rejected). -/
theorem claim_C5_witness :
    copyAttrLoop ((List.replicate 129 97, AttrValue.intV 5) :: []) [] 0
        = copyAttrLoop [] [] (0 + 1)
  ∧ attrDroppedOf (copyAttributes none [(List.replicate 129 97, AttrValue.intV 5)])
      = (if [(List.replicate 129 97, AttrValue.intV 5)]
            = ([] : List (GoString × AttrValue)) then 0
         else toInt32 ([(List.replicate 129 97, AttrValue.intV 5)].countP lengthRejected)) :=
  ⟨(claim_C5 (List.replicate 129 97) (AttrValue.intV 5) (AttributeValueKind.IntValue 5)
      [] [] [] 0).2.1 rfl (by decide),
   (claim_C5 (List.replicate 129 97) (AttrValue.intV 5) (AttributeValueKind.IntValue 5)
      [] [(List.replicate 129 97, AttrValue.intV 5)] [] 0).2.2.2⟩

/-- Claim C6: the encoder returns an absent span exactly for an absent
input, and for every present span it returns a wire span (the function is
total — there is no error path). -/
theorem claim_C6 (pid : GoString) (s : Option SpanData) :
    (protoFromSpanData s pid = none ↔ s = none)
  ∧ ∀ d : SpanData, protoFromSpanData (some d) pid = some (spanOf d pid) := by
  constructor
  · cases s <;> simp [protoFromSpanData]
  · intro d
    rfl

/-- Claim C6, witness. -/
theorem claim_C6_witness :
    protoFromSpanData (some exSpan) [] = some (spanOf exSpan [])
  ∧ protoFromSpanData none [] = none :=
  ⟨(claim_C6 [] (some exSpan)).2 exSpan, (claim_C6 [] none).1.mpr rfl⟩

/-- Claim C7: `clip32` saturates below the minimum and above the maximum
32-bit signed values and is the identity in between. -/
theorem claim_C7 (x : Int) :
    (x < MinInt32 → clip32 x = MinInt32)
  ∧ (MaxInt32 < x → clip32 x = MaxInt32)
  ∧ (MinInt32 ≤ x → x ≤ MaxInt32 → clip32 x = x) := by
  unfold clip32 MinInt32 MaxInt32
  refine ⟨fun h => ?_, fun h => ?_, fun h1 h2 => ?_⟩ <;> split_ifs <;> omega

/-- Claim C7, witness at the three regimes. -/
theorem claim_C7_witness :
    clip32 (-3000000000) = MinInt32
  ∧ clip32 3000000000 = MaxInt32
  ∧ clip32 7 = 7 :=
  ⟨(claim_C7 (-3000000000)).1 (by decide),
   (claim_C7 3000000000).2.1 (by decide),
   (claim_C7 7).2.2 (by decide) (by decide)⟩

/-- Claim C8, counterexample: `truncT` is not idempotent as a (value,
count) pair: re-truncating the value of a truncation that dropped one
byte returns the same value with count 0, not count 1. -/
theorem claim_C8_cex :
    truncT (truncT [97, 97] 1).Value 1 ≠ truncT [97, 97] 1 := by
  decide

/-- Claim C8 (amended): truncation is idempotent on the value: applying
`truncT` to the value of any truncation returns that value unchanged,
with truncated-byte count 0. The full pair differs from the first result
exactly when the first truncation dropped bytes. -/
theorem claim_C8_amended (s : GoString) (n : Nat) :
    truncT (truncT s n).Value n = ⟨(truncT s n).Value, 0⟩ :=
  truncT_of_le (truncT_val_length_le s n)

/-- Claim C9: a span with an empty attribute map yields an output whose
attributes container is absent, and `copyAttributes` leaves any output
container untouched when the input mapping is empty. -/
theorem claim_C9 (s : SpanData) (pid : GoString) :
    (s.Attributes = [] → (spanOf s pid).Attributes = none)
  ∧ ∀ out : Option Span_Attributes, copyAttributes out [] = out := by
  constructor
  · intro h
    rw [attributes_spanOf, h, copyAttributes_nil]
  · exact copyAttributes_nil

/-- Claim C9, witness: a concrete attribute-free span, and a pre-existing
container left untouched. -/
theorem claim_C9_witness :
    (spanOf exSpan []).Attributes = none
  ∧ copyAttributes (some { AttributeMap := [], DroppedAttributesCount := 3 }) []
      = some { AttributeMap := [], DroppedAttributesCount := 3 } :=
  ⟨(claim_C9 exSpan []).1 rfl,
   (claim_C9 exSpan []).2 (some { AttributeMap := [], DroppedAttributesCount := 3 })⟩

/-- Claim C10: the value-type check runs before the key-length check, so
an entry with an over-long key but an unsupported value type is dropped
without incrementing the counter; consequently the final dropped count is
exactly the number of entries with a supported value type and an
over-long key. -/
theorem claim_C10 (k : GoString) (rest entries : List (GoString × AttrValue))
    (am : List (GoString × AttributeValueKind)) (d : Nat) (_hk : 128 < k.length) :
    copyAttrLoop ((k, AttrValue.unsupported) :: rest) am d = copyAttrLoop rest am d
  ∧ (copyAttrLoop entries [] 0).2 = entries.countP lengthRejected := by
  refine ⟨rfl, ?_⟩
  rw [copyAttrLoop_dropped entries [] 0, Nat.zero_add]

set_option maxRecDepth 10000 in
/-- Claim C10, witness at a concrete over-long key of unsupported type. -/
theorem claim_C10_witness :
    copyAttrLoop ((List.replicate 129 97, AttrValue.unsupported) :: []) [] 0
        = copyAttrLoop [] [] 0
  ∧ (copyAttrLoop [(List.replicate 129 97, AttrValue.unsupported)] [] 0).2
      = [(List.replicate 129 97, AttrValue.unsupported)].countP lengthRejected :=
  claim_C10 (List.replicate 129 97) [] [(List.replicate 129 97, AttrValue.unsupported)]
    [] 0 (by decide)
